import Mathlib

/-!
Shallow embedding of the `mdn/content-inventory` repository
(`src/lib/inventory.mjs` and `src/scripts/publish-historic.mjs`),
with theorems checking the natural-language specification against it.

Conventions of the embedding:
* JavaScript strings are modelled as Lean `String` (their characters via
  `String.data`); every version key, hash and date stamp in this program is
  ASCII, so code-unit vs code-point subtleties do not arise.
* Instants (`Temporal.ZonedDateTime` in UTC) are modelled as nonnegative
  integer seconds since the Unix epoch (`Nat`); `Temporal.PlainDate` as the
  number of whole days since the epoch.
* External subprocesses (git, npm) are modelled by their observable inputs
  and outputs: git history is a list of (hash, timestamp) pairs in
  `git rev-list` order (newest first); npm invocations become events in a
  trace; the npm registry query result is an `Except` value.
-/

namespace ContentInventory

/-! ### JavaScript `String.prototype.includes`, on character lists -/

/-- `isPrefixOfChars sub l` is true when `sub` is an initial segment of `l`. -/
def isPrefixOfChars : List Char → List Char → Bool
  | [], _ => true
  | _ :: _, [] => false
  | a :: as, b :: bs => a == b && isPrefixOfChars as bs

/-- `containsSub sub l` is true when `sub` occurs contiguously inside `l`. -/
def containsSub (sub : List Char) : List Char → Bool
  | [] => isPrefixOfChars sub []
  | b :: bs => isPrefixOfChars sub (b :: bs) || containsSub sub bs

/-- Model of JavaScript `s.includes(sub)` (substring containment). -/
def strIncludes (s sub : String) : Bool :=
  containsSub sub.data s.data

/-! ### Duplicate check (`src/scripts/publish-historic.mjs`, `main`, the
`alreadyPublished` loop)

```js
let alreadyPublished = false;
for (const version of Object.keys(completedReleases())) {
  if (version.includes(forthcomingDate) || version.includes(forthcomingHash)) {
    alreadyPublished = `...`;
  }
}
```
The loop leaves `alreadyPublished` truthy exactly when some key matched, so
it is equivalent to an existential scan over the keys. -/

/-- The duplicate check of `main`: does any published version key contain
the candidate date stamp or the candidate short hash as a substring? -/
def dedupeMatch (keys : List String) (forthcomingDate forthcomingHash : String) : Bool :=
  keys.any fun version =>
    strIncludes version forthcomingDate || strIncludes version forthcomingHash

/-! ### Temporal model (UTC), and `Inventory.checkout`
(`src/lib/inventory.mjs`, lines 111-138)

```js
const target = Temporal.PlainDate.from(date)
  .toZonedDateTime({ timeZone: "UTC", plainTime: "00:00:01" })
  .startOfDay();
const hash = execFileSync("git",
    ["rev-list", "-1", `--before=...`, ref], ...)
  .split("\n").filter((line) => line.length > 0).at(-1);
if (!hash) { throw new Error(`Could not find commit near to ...`); }
```
A `PlainDate` is modelled as whole days since the Unix epoch, an instant as
seconds since the epoch. -/

def secondsPerDay : Nat := 86400

/-- `Temporal.PlainDate.toZonedDateTime` with time zone UTC: the instant at
the given number of seconds past midnight of the day. -/
def toZonedDateTimeUTC (day : Nat) (plainTimeSecs : Nat) : Nat :=
  day * secondsPerDay + plainTimeSecs

/-- `Temporal.ZonedDateTime.startOfDay` in UTC: truncate the instant to the
start of its calendar day. -/
def startOfDayUTC (t : Nat) : Nat :=
  t - t % secondsPerDay

/-- The cutoff instant `target` computed by `Inventory.checkout` for a date:
midnight plus the `00:00:01` plain time, then `startOfDay()`. -/
def checkoutCutoff (day : Nat) : Nat :=
  startOfDayUTC (toZonedDateTimeUTC day 1)

/-- A commit of the content repository history: identifier and timestamp
(seconds since the epoch). -/
structure Commit where
  hash : String
  time : Nat
deriving DecidableEq, Repr

/-- `git rev-list -1 --before=<cutoff> <ref>`: with the history listed
newest-first, the first (most recent) commit whose timestamp is at or before
the cutoff (git's `--before` bound is inclusive). `checkout` then takes the
last nonempty output line, which for `-1` is that single commit. -/
def revListBefore1 (history : List Commit) (cutoff : Nat) : Option String :=
  (history.find? fun c => c.time ≤ cutoff).map Commit.hash

/-- `Inventory.checkout ref date`: when a date is given, resolve it to the
hash of the last commit at or before the cutoff (failing when there is
none), otherwise keep `ref`; the returned string is what is passed to
`git switch --detach`. -/
def checkout (history : List Commit) (ref : String) (date : Option Nat) :
    Except String String :=
  match date with
  | none => .ok ref
  | some day =>
    match revListBefore1 history (checkoutCutoff day) with
    | some hash => .ok hash
    | none => .error "Could not find commit near to target"

/-! ### Date-stamp formatting (`src/scripts/publish-historic.mjs`, line 65)

```js
const forthcomingDate = target.toString().slice(0, 10).replaceAll("-", "");
```
`target.toString()` renders the UTC calendar date of the instant as
`YYYY-MM-DD...`; slicing and dropping dashes yields `YYYYMMDD`. The
Gregorian date of an epoch-day count is computed by the standard civil
calendar algorithm. -/

/-- Gregorian (year, month, day) of a count of days since 1970-01-01. -/
def civilFromDays (z0 : Nat) : Nat × Nat × Nat :=
  let z := z0 + 719468
  let era := z / 146097
  let doe := z % 146097
  let yoe := (doe - doe / 1460 + doe / 36524 - doe / 146096) / 365
  let y := yoe + era * 400
  let doy := doe - (365 * yoe + yoe / 4 - yoe / 100)
  let mp := (5 * doy + 2) / 153
  let d := doy - (153 * mp + 2) / 5 + 1
  let m := if mp < 10 then mp + 3 else mp - 9
  (if m ≤ 2 then y + 1 else y, m, d)

/-- Two decimal digits, zero padded. -/
def twoDigits (n : Nat) : String :=
  String.mk [Char.ofNat (48 + n / 10 % 10), Char.ofNat (48 + n % 10)]

/-- Four decimal digits, zero padded. -/
def fourDigits (n : Nat) : String :=
  twoDigits (n / 100) ++ twoDigits (n % 100)

/-- `forthcomingDate`: the `YYYYMMDD` date stamp of the instant `t`. -/
def dateStampOf (t : Nat) : String :=
  match civilFromDays (t / secondsPerDay) with
  | (y, m, d) => fourDigits y ++ twoDigits m ++ twoDigits d

/-! ### Redirect table (`src/lib/inventory.mjs`, `Inventory.redirects`,
lines 252-272)

```js
if (this.rawRedirects === undefined) { throw new Error("Redirects haven't been loaded. ..."); }
const lines = this.rawRedirects.split("\n");
const redirectLines = lines.filter(
  (line) => line.startsWith("/") && line.includes("\t"),
);
const redirectMap = new Map();
for (const redirectLine of redirectLines) {
  const [source, target] = redirectLine.split("\t", 2);
  if (source && target) { redirectMap.set(source, target); }
}
return Object.fromEntries(redirectMap);
```
A JavaScript `Map` is modelled as an insertion-ordered association list
with unique keys; `Map.set` updates an existing key in place or appends a
new one. -/

/-- JavaScript `Map.prototype.set`: overwrite the value of an existing key
in place, otherwise append the new entry. -/
def mapSet (m : List (String × String)) (k v : String) : List (String × String) :=
  if m.any fun p => p.1 == k then
    m.map fun p => if p.1 == k then (k, v) else p
  else
    m ++ [(k, v)]

/-- `Map.prototype.get` (also lookup in the object produced by
`Object.fromEntries`): the value of the first entry with the given key. -/
def tableLookup (m : List (String × String)) (k : String) : Option String :=
  (m.find? fun p => p.1 == k).map Prod.snd

/-- JavaScript `String.prototype.split` on a single separator character, on
character lists: `"".split` is `[""]`, separators at the ends produce empty
fields. -/
def splitOnChar (sep : Char) : List Char → List (List Char)
  | [] => [[]]
  | c :: cs =>
    if c == sep then [] :: splitOnChar sep cs
    else
      match splitOnChar sep cs with
      | [] => [[c]]
      | field :: rest => (c :: field) :: rest

/-- `s.split(sep)` for a one-character separator. -/
def jsSplit (s : String) (sep : Char) : List String :=
  (splitOnChar sep s.data).map String.mk

/-- The line filter of `redirects()`: keep lines starting with `/` that
contain a tab (`line.startsWith("/") && line.includes("\t")`). -/
def keepLine (line : String) : Bool :=
  (match line.data with
    | [] => false
    | c :: _ => c == '/') && line.data.contains '\t'

/-- `line.split("\t", 2)` followed by the `if (source && target)` truthiness
check: the first two tab-delimited fields when both are nonempty (the empty
string is falsy in JavaScript). -/
def lineFields (line : String) : Option (String × String) :=
  match (jsSplit line '\t').take 2 with
  | [source, target] =>
    if source ≠ "" ∧ target ≠ "" then some (source, target) else none
  | _ => none

/-- The body of `Inventory.redirects` on loaded raw text: filter the lines,
then insert the field pairs into the map in line order. -/
def redirects (rawRedirects : String) : List (String × String) :=
  let lines := jsSplit rawRedirects '\n'
  let redirectLines := lines.filter keepLine
  redirectLines.foldl
    (fun m line =>
      match lineFields line with
      | some (source, target) => mapSet m source target
      | none => m)
    []

/-- `Inventory.redirects` including the not-yet-loaded guard: the
`rawRedirects` field starts out `undefined` (`none`) and the method throws
in that case. -/
def redirectsMethod (rawRedirects : Option String) : Except String (List (String × String)) :=
  match rawRedirects with
  | none =>
    .error "Redirects haven't been loaded. Did you call `init()` or `loadRedirects()` first?"
  | some raw => .ok (redirects raw)

/-- `Inventory.loadRedirects`: store the raw file contents into the
`rawRedirects` field (previously `undefined`). -/
def loadRedirects (fileContents : String) : Option String :=
  some fileContents

/-- The retained (source, target) pairs of the raw text, in line order:
lines filtered by the `redirects()` line filter, each reduced to its first
two tab-delimited fields when both are nonempty. -/
def parsedPairs (rawRedirects : String) : List (String × String) :=
  ((jsSplit rawRedirects '\n').filter keepLine).filterMap lineFields

/-- One step of the `redirects()` insertion loop. -/
def insertLine (m : List (String × String)) (line : String) : List (String × String) :=
  match lineFields line with
  | some (source, target) => mapSet m source target
  | none => m

/-- First option if present, otherwise the second. -/
def orOpt (a b : Option String) : Option String :=
  match a with
  | some v => some v
  | none => b

/-! ### `Inventory.init` and `Inventory.loadInventory`
(`src/lib/inventory.mjs`, lines 69-79 and 158-183)

```js
const result = await this.loadInventory();
if (result === null || result > 0) {
  this.logger.error(this.rawInventoryStdErr);
  throw new Error("Failed to load data. See stdout above for details.");
}
```
`loadInventory` spawns the extraction subprocess, accumulates stdout and
stderr into buffers, and returns a promise that rejects with the spawn
error when the process could not start (`process.on("error", reject)`) and
otherwise resolves with the close code (`null` when the process did not
exit on its own). Exit codes reported by a close event are natural
numbers. -/

/-- Errors the inventory-loading tail of `Inventory.init` can fail with. -/
inductive InitError where
  | spawnFailure (err : String)
  | extraction (stderrBuf : String)
deriving DecidableEq, Repr

/-- The inventory-loading tail of `Inventory.init`: await the subprocess
result and check its exit status; on a null or positive status, fail after
surfacing the captured stderr buffer (the `extraction` error carries it); a
rejection of the promise propagates through the `await` unchanged. -/
def initResult (loadResult : Except String (Option Nat)) (stderrBuf : String) :
    Except InitError Unit :=
  match loadResult with
  | .error err => .error (.spawnFailure err)
  | .ok none => .error (.extraction stderrBuf)
  | .ok (some code) =>
    if code > 0 then .error (.extraction stderrBuf) else .ok ()

/-! ### `completedReleases` (`src/scripts/publish-historic.mjs`, lines 120-132)

```js
try {
  return JSON.parse(execFileSync("npm", ["view", "@mdn/content-inventory", "time", "--json"], ...));
} catch (err) {
  return {};
}
```
The registry query and the parse of its output are modelled by their
combined outcome: either the version→timestamp table, or an error. -/

/-- `completedReleases()`: the parsed registry table, or an empty table when
anything in the query or the parse failed. -/
def completedReleases (queryResult : Except String (List (String × String))) :
    List (String × String) :=
  match queryResult with
  | .ok table => table
  | .error _ => []

/-! ### The historic publish driver (`src/scripts/publish-historic.mjs`, `main`)

```js
const now = Temporal.Now.zonedDateTimeISO("UTC");
let target = START_DATE;
while (Temporal.ZonedDateTime.compare(target, now) < 1) {
  npmRun("clean");
  npmRun("build", `--date=...`);
  ... read forthcomingVersion, forthcomingHash; compute forthcomingDate ...
  let alreadyPublished = false;
  for (const version of Object.keys(completedReleases())) { ... }
  if (alreadyPublished) {
    if (argv.continue) { logger.warn(`...; skipping this release`); }
    else { throw new Error(alreadyPublished); }
  } else {
    if (argv.dryRun) { npmRun("publish:dry-run"); } else { npmRun("publish"); }
  }
  npmRun("clean");
  target = target.add({ days: 1 });
}
```
-/

/-- The CLI flags `main` reads (`--dry-run` defaults to true, `--continue`
to false). -/
structure Config where
  dryRun : Bool
  contOnDup : Bool
deriving DecidableEq, Repr

/-- The per-day inputs `main` reads from the outside world: the `version`
field of `package/package.json` and the short commit hash of
`package/index.json` that this day's build produced, and the version keys
the registry reports when queried on this day. -/
structure DayInput where
  version : String
  hash : String
  ledger : List String
deriving DecidableEq, Repr

/-- The observable actions of a run of `main`. -/
inductive Event where
  | runClean
  | runBuild (dateArg : Nat)
  | logSkip (msg : String)
  | publishDryRun
  | publishReal
deriving DecidableEq, Repr

/-- The duplicate message
`${forthcomingDate} or ${forthcomingHash} is already published as ${forthcomingVersion}`. -/
def dupMsg (forthcomingDate forthcomingHash forthcomingVersion : String) : String :=
  forthcomingDate ++ " or " ++ forthcomingHash ++ " is already published as "
    ++ forthcomingVersion

/-- One loop iteration of `main` at instant `target`: the events it emits
and, when the duplicate error is thrown (`--continue` disabled), the thrown
message. The iteration's trailing `npmRun("clean")` is reached only when no
error is thrown. -/
def dayTrace (cfg : Config) (di : DayInput) (target : Nat) : List Event × Option String :=
  let forthcomingDate := dateStampOf target
  let msg := dupMsg forthcomingDate di.hash di.version
  if dedupeMatch di.ledger forthcomingDate di.hash then
    if cfg.contOnDup then
      ([.runClean, .runBuild target, .logSkip msg, .runClean], none)
    else
      ([.runClean, .runBuild target], some msg)
  else
    ([.runClean, .runBuild target,
      if cfg.dryRun then .publishDryRun else .publishReal, .runClean], none)

/-- The outcome of a whole run of `main`: normal completion, or the
propagated duplicate error. -/
inductive RunResult where
  | completed
  | aborted (msg : String)
deriving DecidableEq, Repr

/-- `START_DATE`, the instant `2023-10-01T00:00:00.000Z`, in epoch seconds. -/
def START_DATE : Nat := 1696118400

/-- The number of loop iterations `main` performs for a start instant and
`now`: one per calendar day from `start` through the day of `now`. -/
def daysCount (start now : Nat) : Nat :=
  if start ≤ now then (now - start) / secondsPerDay + 1 else 0

/-- The body of the `main` loop, by recursion on the remaining iteration
count `gas` (the loop advances `target` by one day per iteration, so it
runs for exactly `daysCount target now` iterations; `gas` is kept equal to
that measure by `runDriver`). -/
def runDriverGo (cfg : Config) (inputs : Nat → DayInput) (now : Nat) :
    Nat → Nat → List Event × RunResult
  | 0, _ => ([], .completed)
  | gas + 1, target =>
    if target ≤ now then
      match dayTrace cfg (inputs target) target with
      | (evs, some msg) => (evs, .aborted msg)
      | (evs, none) =>
        let rest := runDriverGo cfg inputs now gas (target + secondsPerDay)
        (evs ++ rest.1, rest.2)
    else ([], .completed)

/-- The `main` loop from instant `target` (always a UTC midnight; initially
`START_DATE`) while `target <= now`, collecting the emitted events; a
thrown duplicate error aborts the whole run, later days are not reached. -/
def runDriver (cfg : Config) (inputs : Nat → DayInput) (target now : Nat) :
    List Event × RunResult :=
  runDriverGo cfg inputs now (daysCount target now) target

/-- The build dates a run attempted, in order. -/
def buildTargets (evs : List Event) : List Nat :=
  evs.filterMap fun e =>
    match e with
    | .runBuild t => some t
    | _ => none

/-- The events of one unmatched (publishing) iteration. -/
def dayPublishEvents (cfg : Config) (t : Nat) : List Event :=
  [.runClean, .runBuild t, if cfg.dryRun then .publishDryRun else .publishReal, .runClean]

/-- Collapse the two publish event kinds, keeping every other event. -/
def normEv : Event → Event
  | .publishReal => .publishDryRun
  | e => e

/-! ## Proofs -/

theorem isPrefixOfChars_iff (sub l : List Char) :
    isPrefixOfChars sub l = true ↔ ∃ post, l = sub ++ post := by
  induction sub generalizing l with
  | nil => simp [isPrefixOfChars]
  | cons a as ih =>
    cases l with
    | nil => simp [isPrefixOfChars]
    | cons b bs =>
      simp only [isPrefixOfChars, Bool.and_eq_true, beq_iff_eq, ih,
        List.cons_append, List.cons.injEq]
      constructor
      · rintro ⟨rfl, post, rfl⟩
        exact ⟨post, rfl, rfl⟩
      · rintro ⟨post, rfl, rfl⟩
        exact ⟨rfl, post, rfl⟩

theorem containsSub_iff (sub l : List Char) :
    containsSub sub l = true ↔ ∃ pre post, l = pre ++ sub ++ post := by
  induction l with
  | nil =>
    simp only [containsSub, isPrefixOfChars_iff]
    constructor
    · rintro ⟨post, h⟩
      exact ⟨[], post, by simpa using h⟩
    · rintro ⟨pre, post, h⟩
      have h1 : pre = [] ∧ sub ++ post = [] := by
        constructor
        · cases pre with
          | nil => rfl
          | cons x xs => simp at h
        · cases pre with
          | nil => simpa using h.symm
          | cons x xs => simp at h
      exact ⟨post, by simp [h1.2]⟩
  | cons b bs ih =>
    simp only [containsSub, Bool.or_eq_true, isPrefixOfChars_iff, ih]
    constructor
    · rintro (⟨post, h⟩ | ⟨pre, post, h⟩)
      · exact ⟨[], post, by simpa using h⟩
      · exact ⟨b :: pre, post, by simp [h]⟩
    · rintro ⟨pre, post, h⟩
      cases pre with
      | nil =>
        left
        exact ⟨post, by simpa using h⟩
      | cons x xs =>
        right
        simp only [List.cons_append, List.cons.injEq] at h
        exact ⟨xs, post, h.2⟩

theorem strIncludes_iff (s sub : String) :
    strIncludes s sub = true ↔ ∃ pre post, s.data = pre ++ sub.data ++ post := by
  simpa [strIncludes] using containsSub_iff sub.data s.data

theorem checkoutCutoff_eq (day : Nat) :
    checkoutCutoff day = day * secondsPerDay := by
  have h : (day * secondsPerDay + 1) % secondsPerDay = 1 := by
    rw [Nat.add_mod, Nat.mul_mod_left]
    simp [secondsPerDay]
  simp [checkoutCutoff, startOfDayUTC, toZonedDateTimeUTC, h]

example : dateStampOf 1696118400 = "20231001" := by decide
example : dateStampOf 1696291200 = "20231003" := by decide
example : checkoutCutoff 19631 = 1696118400 := by decide

/-! Lookup lemmas about the `Map` model. -/

theorem find?_overwrite_self (m : List (String × String)) (k v : String)
    (h : (m.any fun p => p.1 == k) = true) :
    ((m.map fun p => if p.1 == k then (k, v) else p).find? fun p => p.1 == k) =
      some (k, v) := by
  induction m with
  | nil => simp at h
  | cons p ps ih =>
    rcases p with ⟨pk, pv⟩
    rw [List.map_cons]
    by_cases hpk : pk = k
    · rw [if_pos (show ((pk, pv).1 == k) = true by simpa using hpk)]
      simp only [List.find?, beq_self_eq_true]
    · have hb : ((pk, pv).1 == k) = false := by simpa using hpk
      rw [if_neg (by simp [hb])]
      simp only [List.find?, hb]
      apply ih
      rw [List.any_cons] at h
      rcases Bool.or_eq_true_iff.mp h with h1 | h2
      · exact absurd (by simpa using h1) hpk
      · exact h2

theorem find?_overwrite_other (m : List (String × String)) (k v k' : String)
    (h : k' ≠ k) :
    ((m.map fun p => if p.1 == k then (k, v) else p).find? fun p => p.1 == k') =
      m.find? fun p => p.1 == k' := by
  have hkk : ((k, v).1 == k') = false := by
    simp only [beq_eq_false_iff_ne, ne_eq]
    exact fun hc => h hc.symm
  induction m with
  | nil => rfl
  | cons p ps ih =>
    rcases p with ⟨pk, pv⟩
    rw [List.map_cons]
    by_cases hpk : pk = k
    · rw [if_pos (show ((pk, pv).1 == k) = true by simpa using hpk)]
      have hb : ((pk, pv).1 == k') = false := by
        simp only [beq_eq_false_iff_ne, ne_eq]
        intro hc
        exact h (by rw [← hc, hpk])
      simp only [List.find?, hkk, hb]
      exact ih
    · have hb : ((pk, pv).1 == k) = false := by simpa using hpk
      rw [if_neg (by simp [hb])]
      cases hpk2 : ((pk, pv).1 == k') with
      | true => simp only [List.find?, hpk2]
      | false =>
        simp only [List.find?, hpk2]
        exact ih

theorem any_eq_false_find? (m : List (String × String)) (k : String)
    (h : (m.any fun p => p.1 == k) = false) :
    (m.find? fun p => p.1 == k) = none := by
  induction m with
  | nil => rfl
  | cons p ps ih =>
    rw [List.any_cons, Bool.or_eq_false_iff] at h
    simp only [List.find?, h.1]
    exact ih h.2

theorem find?_append_none (m : List (String × String)) (q : String × String)
    (k' : String) (h : (m.find? fun p => p.1 == k') = none) :
    ((m ++ [q]).find? fun p => p.1 == k') = [q].find? fun p => p.1 == k' := by
  induction m with
  | nil => rfl
  | cons p ps ih =>
    rw [List.cons_append]
    cases hp : (p.1 == k') with
    | true =>
      simp only [List.find?, hp] at h
      exact absurd h (Option.some_ne_none _)
    | false =>
      simp only [List.find?, hp] at h ⊢
      exact ih h

theorem find?_append_found (m : List (String × String)) (q r : String × String)
    (k' : String) (h : (m.find? fun p => p.1 == k') = some r) :
    ((m ++ [q]).find? fun p => p.1 == k') = some r := by
  induction m with
  | nil => simp at h
  | cons p ps ih =>
    rw [List.cons_append]
    cases hp : (p.1 == k') with
    | true =>
      simp only [List.find?, hp] at h ⊢
      exact h
    | false =>
      simp only [List.find?, hp] at h ⊢
      exact ih h

/-- `Map.set` then `get`: the set key reads back the new value, every other
key is unchanged. -/
theorem tableLookup_mapSet (m : List (String × String)) (k v k' : String) :
    tableLookup (mapSet m k v) k' =
      if k' = k then some v else tableLookup m k' := by
  by_cases hany : (m.any fun p => p.1 == k) = true
  · have hm : mapSet m k v = m.map fun p => if p.1 == k then (k, v) else p := by
      simp only [mapSet]
      rw [if_pos hany]
    rw [tableLookup, hm]
    by_cases h : k' = k
    · rw [if_pos h, h, find?_overwrite_self m k v hany]
      rfl
    · rw [if_neg h, find?_overwrite_other m k v k' h]
      rfl
  · have hm : mapSet m k v = m ++ [(k, v)] := by
      simp only [mapSet]
      rw [if_neg hany]
    rw [tableLookup, hm]
    by_cases h : k' = k
    · rw [if_pos h, h]
      have hnone : (m.find? fun p => p.1 == k) = none := by
        apply any_eq_false_find?
        simp only [Bool.not_eq_true] at hany
        exact hany
      rw [find?_append_none m (k, v) k hnone]
      simp only [List.find?, beq_self_eq_true]
      rfl
    · rw [if_neg h]
      cases hf : m.find? fun p => p.1 == k' with
      | none =>
        rw [find?_append_none m (k, v) k' hf]
        have hb : ((k, v).1 == k') = false := by
          simp only [beq_eq_false_iff_ne, ne_eq]
          exact fun hc => h hc.symm
        simp only [List.find?, hb]
        rw [tableLookup, hf]
      | some r =>
        rw [find?_append_found m (k, v) r k' hf, tableLookup, hf]

theorem redirects_eq_foldl (rawRedirects : String) :
    redirects rawRedirects =
      ((jsSplit rawRedirects '\n').filter keepLine).foldl insertLine [] := by
  rfl

theorem lookup_foldl_insertLine (lines : List String) (m : List (String × String))
    (k : String) :
    tableLookup (lines.foldl insertLine m) k =
      orOpt (((lines.filterMap lineFields).reverse.find? fun p => p.1 == k).map
        Prod.snd) (tableLookup m k) := by
  induction lines generalizing m with
  | nil => rfl
  | cons line rest ih =>
    rw [List.foldl_cons]
    cases hl : lineFields line with
    | none =>
      have hins : insertLine m line = m := by
        simp only [insertLine, hl]
      rw [hins, List.filterMap_cons_none hl]
      exact ih m
    | some st =>
      rcases st with ⟨s, t⟩
      have hins : insertLine m line = mapSet m s t := by
        simp only [insertLine, hl]
      rw [hins, List.filterMap_cons_some hl, ih (mapSet m s t), tableLookup_mapSet,
        List.reverse_cons]
      cases hr : (rest.filterMap lineFields).reverse.find? fun p => p.1 == k with
      | some r =>
        rw [find?_append_found _ (s, t) r k hr]
        rfl
      | none =>
        rw [find?_append_none _ (s, t) k hr]
        by_cases hks : k = s
        · subst hks
          simp only [List.find?, beq_self_eq_true, if_pos]
          rfl
        · have hb : ((s, t).1 == k) = false := by
            simp only [beq_eq_false_iff_ne, ne_eq]
            exact fun hc => hks hc.symm
          simp only [List.find?, hb]
          rw [if_neg hks]

theorem orOpt_none (a : Option String) : orOpt a none = a := by
  cases a <;> rfl

/-- Lookup in the parsed redirect table: the target of the last retained
valid line with the given source (later lines overwrite earlier ones). -/
theorem lookup_redirects (rawRedirects k : String) :
    tableLookup (redirects rawRedirects) k =
      ((parsedPairs rawRedirects).reverse.find? fun p => p.1 == k).map Prod.snd := by
  rw [redirects_eq_foldl, lookup_foldl_insertLine]
  exact orOpt_none _

example : redirects "/old/path\t/new/path" = [("/old/path", "/new/path")] := by decide
example : redirects "/a\t/x\n/a\t/y" = [("/a", "/y")] := by decide
example : redirects "no-slash\t/x" = [] := by decide
example : redirects "/no-tab-here" = [] := by decide
example : redirects "/a\t" = [] := by decide

theorem daysCount_succ (target now : Nat) (h : target ≤ now) :
    daysCount target now = daysCount (target + secondsPerDay) now + 1 := by
  by_cases h2 : target + secondsPerDay ≤ now
  · have hb : secondsPerDay ≤ now - target := by
      simp only [secondsPerDay] at h2 ⊢
      omega
    have hd : (now - target) / secondsPerDay =
        (now - target - secondsPerDay) / secondsPerDay + 1 := by
      rw [Nat.div_eq_sub_div (by simp [secondsPerDay]) hb]
    have he : now - target - secondsPerDay = now - (target + secondsPerDay) := by
      omega
    rw [daysCount, daysCount, if_pos h, if_pos h2, hd, he]
  · have hlt : now - target < secondsPerDay := by
      simp only [secondsPerDay] at h2 ⊢
      omega
    rw [daysCount, daysCount, if_pos h, if_neg h2, Nat.div_eq_of_lt hlt]

theorem runDriver_le (cfg : Config) (inputs : Nat → DayInput) (target now : Nat)
    (h : target ≤ now) :
    runDriver cfg inputs target now =
      match dayTrace cfg (inputs target) target with
      | (evs, some msg) => (evs, .aborted msg)
      | (evs, none) =>
        ((evs ++ (runDriver cfg inputs (target + secondsPerDay) now).1,
          (runDriver cfg inputs (target + secondsPerDay) now).2)) := by
  rw [runDriver, daysCount_succ target now h, runDriverGo, if_pos h]
  rfl

theorem runDriver_gt (cfg : Config) (inputs : Nat → DayInput) (target now : Nat)
    (h : ¬ target ≤ now) :
    runDriver cfg inputs target now = ([], .completed) := by
  rw [runDriver, daysCount, if_neg h, runDriverGo]

/-! Per-day behaviour of the loop body, by case on the dedupe decision. -/

theorem dayTrace_matched_skip (cfg : Config) (di : DayInput) (target : Nat)
    (hm : dedupeMatch di.ledger (dateStampOf target) di.hash = true)
    (hc : cfg.contOnDup = true) :
    dayTrace cfg di target =
      ([.runClean, .runBuild target,
        .logSkip (dupMsg (dateStampOf target) di.hash di.version), .runClean], none) := by
  simp [dayTrace, hm, hc]

theorem dayTrace_matched_abort (cfg : Config) (di : DayInput) (target : Nat)
    (hm : dedupeMatch di.ledger (dateStampOf target) di.hash = true)
    (hc : cfg.contOnDup = false) :
    dayTrace cfg di target =
      ([.runClean, .runBuild target],
        some (dupMsg (dateStampOf target) di.hash di.version)) := by
  simp [dayTrace, hm, hc]

theorem dayTrace_unmatched (cfg : Config) (di : DayInput) (target : Nat)
    (hm : dedupeMatch di.ledger (dateStampOf target) di.hash = false) :
    dayTrace cfg di target =
      ([.runClean, .runBuild target,
        if cfg.dryRun then .publishDryRun else .publishReal, .runClean], none) := by
  simp [dayTrace, hm]

theorem runDriverGo_noMatch (cfg : Config) (inputs : Nat → DayInput) (now : Nat)
    (hnm : ∀ t, dedupeMatch (inputs t).ledger (dateStampOf t) (inputs t).hash = false)
    (gas : Nat) :
    ∀ target, gas = daysCount target now →
      runDriverGo cfg inputs now gas target =
        (((List.range gas).map fun i =>
          dayPublishEvents cfg (target + secondsPerDay * i)).flatten, .completed) := by
  induction gas with
  | zero =>
    intro target _
    simp [runDriverGo]
  | succ gas ih =>
    intro target hg
    have hle : target ≤ now := by
      by_contra hc
      rw [daysCount, if_neg hc] at hg
      exact Nat.succ_ne_zero gas hg
    have hgas : gas = daysCount (target + secondsPerDay) now := by
      have := daysCount_succ target now hle
      omega
    rw [runDriverGo, if_pos hle, dayTrace_unmatched cfg (inputs target) target (hnm target),
      ih (target + secondsPerDay) hgas]
    have h0 : target + secondsPerDay * 0 = target := by omega
    have hmap : ((List.range gas).map
          ((fun i => dayPublishEvents cfg (target + secondsPerDay * i)) ∘ Nat.succ)) =
        (List.range gas).map fun i =>
          dayPublishEvents cfg (target + secondsPerDay + secondsPerDay * i) := by
      apply List.map_congr_left
      intro i _
      simp only [Function.comp_apply]
      congr 1
      simp only [secondsPerDay]
      omega
    simp only [List.range_succ_eq_map, List.map_cons, List.flatten_cons, List.map_map,
      hmap, h0]
    rfl

/-- Closed form of a run in which no day matches: one publish block per
calendar day from `target` through the day of `now`, normal completion. -/
theorem runDriver_noMatch (cfg : Config) (inputs : Nat → DayInput) (target now : Nat)
    (hnm : ∀ t, dedupeMatch (inputs t).ledger (dateStampOf t) (inputs t).hash = false) :
    runDriver cfg inputs target now =
      (((List.range (daysCount target now)).map fun i =>
        dayPublishEvents cfg (target + secondsPerDay * i)).flatten, .completed) :=
  runDriverGo_noMatch cfg inputs now hnm (daysCount target now) target rfl

theorem runDriverGo_succ (cfg : Config) (inputs : Nat → DayInput) (now gas target : Nat) :
    runDriverGo cfg inputs now (gas + 1) target =
      if target ≤ now then
        match dayTrace cfg (inputs target) target with
        | (evs, some msg) => (evs, .aborted msg)
        | (evs, none) =>
          ((evs ++ (runDriverGo cfg inputs now gas (target + secondsPerDay)).1,
            (runDriverGo cfg inputs now gas (target + secondsPerDay)).2))
      else ([], .completed) := rfl

theorem runDriverGo_dryRun (c : Bool) (inputs : Nat → DayInput) (now gas : Nat) :
    ∀ target,
      (runDriverGo ⟨true, c⟩ inputs now gas target).1.map normEv =
        (runDriverGo ⟨false, c⟩ inputs now gas target).1.map normEv
      ∧ (runDriverGo ⟨true, c⟩ inputs now gas target).2 =
        (runDriverGo ⟨false, c⟩ inputs now gas target).2
      ∧ Event.publishReal ∉ (runDriverGo ⟨true, c⟩ inputs now gas target).1 := by
  induction gas with
  | zero =>
    intro target
    simp [runDriverGo]
  | succ gas ih =>
    intro target
    obtain ⟨ih1, ih2, ih3⟩ := ih (target + secondsPerDay)
    by_cases hle : target ≤ now
    · rw [runDriverGo_succ, runDriverGo_succ, if_pos hle, if_pos hle]
      cases hm : dedupeMatch (inputs target).ledger (dateStampOf target) (inputs target).hash with
      | true =>
        cases c with
        | false =>
          rw [dayTrace_matched_abort ⟨true, false⟩ (inputs target) target hm rfl,
            dayTrace_matched_abort ⟨false, false⟩ (inputs target) target hm rfl]
          refine ⟨rfl, rfl, ?_⟩
          simp
        | true =>
          rw [dayTrace_matched_skip ⟨true, true⟩ (inputs target) target hm rfl,
            dayTrace_matched_skip ⟨false, true⟩ (inputs target) target hm rfl]
          refine ⟨?_, ?_, ?_⟩
          · simp only [List.map_append, List.map_cons, List.map_nil]
            rw [ih1]
          · exact ih2
          · simp only [List.mem_append, List.mem_cons]
            intro hmem
            rcases hmem with h1 | h2
            · simp [normEv] at h1
            · exact ih3 h2
      | false =>
        rw [dayTrace_unmatched ⟨true, c⟩ (inputs target) target hm,
          dayTrace_unmatched ⟨false, c⟩ (inputs target) target hm]
        refine ⟨?_, ?_, ?_⟩
        · simp only [List.map_append, List.map_cons, List.map_nil]
          rw [ih1]
          rfl
        · exact ih2
        · simp only [List.mem_append, List.mem_cons]
          intro hmem
          rcases hmem with h1 | h2
          · simp [normEv] at h1
          · exact ih3 h2
    · rw [runDriverGo_succ, runDriverGo_succ, if_neg hle, if_neg hle]
      simp

/-! ## Claim theorems -/

/-- C2: the duplicate check reports a match if and only if some published
version key contains the candidate's date stamp or its short hash as a
substring; in particular `"1.2.3-20231005-abc1234"` matches date stamp
`20231005`, and a candidate whose hash and date stamp occur in no key does
not match. -/
theorem claim_c2_dedupe_substring :
    (∀ keys d h, dedupeMatch keys d h = true ↔
      ∃ v ∈ keys, (∃ pre post, v.data = pre ++ d.data ++ post) ∨
        (∃ pre post, v.data = pre ++ h.data ++ post))
    ∧ dedupeMatch ["1.2.3-20231005-abc1234"] "20231005" "deadbee" = true
    ∧ dedupeMatch ["1.2.3-20231005-abc1234"] "20231006" "def5678" = false := by
  refine ⟨?_, by decide, by decide⟩
  intro keys d h
  simp only [dedupeMatch, List.any_eq_true, Bool.or_eq_true, strIncludes_iff]

/-- C6: `Inventory.redirects` returns exactly the mapping obtained by
splitting the text into lines, retaining lines that start with `/` and
contain a tab, taking the first two tab-delimited fields, dropping lines
with an empty field, and inserting in line order with later lines
overwriting earlier ones (the lookup of every key is the target of the
last such line; parsing is a pure function, hence deterministic). -/
theorem claim_c6_redirects_parse :
    (∀ raw k, tableLookup (redirects raw) k =
      ((parsedPairs raw).reverse.find? fun p => p.1 == k).map Prod.snd)
    ∧ redirects "/old/path\t/new/path" = [("/old/path", "/new/path")]
    ∧ redirects "/no-tab-here" = []
    ∧ redirects "no-slash\t/x" = []
    ∧ redirects "/a\t/x\n/a\t/y" = [("/a", "/y")] :=
  ⟨lookup_redirects, by decide, by decide, by decide, by decide⟩

/-- C10: calling `Inventory.redirects` before the raw text is loaded
(`rawRedirects` still `undefined`) throws rather than returning an empty
table; once loaded (e.g. by `loadRedirects`), it is total and never throws
for any text content. -/
theorem claim_c10_redirects_guard :
    redirectsMethod none =
      .error "Redirects haven't been loaded. Did you call `init()` or `loadRedirects()` first?"
    ∧ redirectsMethod none ≠ Except.ok []
    ∧ (∀ raw, redirectsMethod (loadRedirects raw) = Except.ok (redirects raw)) := by
  refine ⟨rfl, ?_, fun raw => rfl⟩
  simp [redirectsMethod]

/-- C7: `completedReleases` never propagates a query failure: it returns an
empty set on any error, so a first-ever publish (no registry history)
reaches the publish step of the loop body instead of aborting. -/
theorem claim_c7_ledger_fail_open :
    (∀ err, completedReleases (Except.error err) = [])
    ∧ (∀ err d h,
        dedupeMatch ((completedReleases (Except.error err)).map Prod.fst) d h = false)
    ∧ (∀ err cfg v hsh target,
        dayTrace cfg ⟨v, hsh, (completedReleases (Except.error err)).map Prod.fst⟩ target =
          ([.runClean, .runBuild target,
            if cfg.dryRun then .publishDryRun else .publishReal, .runClean], none)) := by
  refine ⟨fun err => rfl, fun err d h => rfl, fun err cfg v hsh target => ?_⟩
  exact dayTrace_unmatched cfg _ target rfl

/-- C8 counterexample: when the extraction subprocess could not start, the
promise rejection propagates through `await` unchanged, so `init` fails
with the spawn error itself, not with the extraction error that surfaces
the captured stderr buffer — contradicting the claim for the "unknown
(process could not start)" case. -/
theorem claim_c8_counterexample :
    initResult (Except.error "ENOENT") "captured stderr" =
      Except.error (InitError.spawnFailure "ENOENT")
    ∧ initResult (Except.error "ENOENT") "captured stderr" ≠
      Except.error (InitError.extraction "captured stderr")
    ∧ initResult (Except.error "ENOENT") "captured stderr" ≠ Except.ok () := by
  refine ⟨rfl, ?_, ?_⟩ <;> simp [initResult]

/-- C8 amended: `init` fails with the extraction error surfacing the
captured stderr exactly when the subprocess's close code is null or
positive; a zero exit code succeeds; when the process could not start, the
spawn error propagates unchanged instead of the extraction error. -/
theorem claim_c8_amended (buf : String) :
    initResult (Except.ok (some 0)) buf = Except.ok ()
    ∧ (∀ n, 0 < n →
        initResult (Except.ok (some n)) buf = Except.error (InitError.extraction buf))
    ∧ initResult (Except.ok none) buf = Except.error (InitError.extraction buf)
    ∧ (∀ e, initResult (Except.error e) buf = Except.error (InitError.spawnFailure e)) := by
  refine ⟨rfl, ?_, rfl, fun e => rfl⟩
  intro n hn
  simp [initResult, hn]

/-- C8 witness: a concrete failing exit status (2) produces the extraction
error carrying the stderr buffer. -/
theorem claim_c8_witness :
    initResult (Except.ok (some 2)) "some diagnostics" =
      Except.error (InitError.extraction "some diagnostics") :=
  (claim_c8_amended "some diagnostics").2.1 2 (by decide)

/-- C1 counterexample: for the date 2023-10-01 (epoch day 19631) the cutoff
instant `checkout` computes is exactly the UTC start of day, not start of
day plus one second: the trailing `startOfDay()` call discards the
`00:00:01` plain time. -/
theorem claim_c1_counterexample :
    checkoutCutoff 19631 = 19631 * secondsPerDay
    ∧ checkoutCutoff 19631 ≠ 19631 * secondsPerDay + 1
    ∧ checkoutCutoff 19631 = 1696118400 :=
  ⟨by decide, by decide, by decide⟩

/-- C1 amended: the cutoff instant computed by `Inventory.checkout` is
exactly the UTC start of day of the target date (the one-second plain time
is cancelled by `startOfDay()`); since git's `--before` bound is inclusive,
a commit authored at exactly midnight UTC is still eligible for resolution,
and the resolved commit is never authored after midnight. -/
theorem claim_c1_amended (day : Nat) (history : List Commit) :
    checkoutCutoff day = day * secondsPerDay
    ∧ (∀ hash, revListBefore1 history (checkoutCutoff day) = some hash →
        ∃ c ∈ history, c.hash = hash ∧ c.time ≤ day * secondsPerDay)
    ∧ (∀ c ∈ history, c.time = day * secondsPerDay →
        revListBefore1 history (checkoutCutoff day) ≠ none)
    ∧ (∀ ref hash, checkout history ref (some day) = Except.ok hash →
        revListBefore1 history (checkoutCutoff day) = some hash) := by
  refine ⟨checkoutCutoff_eq day, ?_, ?_, ?_⟩
  · intro hash hfind
    rw [revListBefore1] at hfind
    rcases Option.map_eq_some'.mp hfind with ⟨c, hc, hhash⟩
    refine ⟨c, List.mem_of_find?_eq_some hc, hhash, ?_⟩
    have := List.find?_some hc
    rw [checkoutCutoff_eq day] at this
    exact of_decide_eq_true this
  · intro c hmem htime hnone
    rw [revListBefore1, Option.map_eq_none'] at hnone
    have hsome : (history.find? fun c => c.time ≤ checkoutCutoff day).isSome := by
      rw [List.find?_isSome]
      refine ⟨c, hmem, ?_⟩
      rw [checkoutCutoff_eq day, htime]
      exact decide_eq_true (Nat.le_refl _)
    rw [hnone] at hsome
    exact Bool.false_ne_true hsome
  · intro ref hash hck
    rw [checkout] at hck
    cases hr : revListBefore1 history (checkoutCutoff day) with
    | some h2 =>
      rw [hr] at hck
      cases hck
      rfl
    | none =>
      rw [hr] at hck
      cases hck

/-- C1 witness: with a history holding a commit at 2023-10-01T00:00:10Z and
one at exactly midnight 2023-10-01T00:00:00Z, resolution for 2023-10-01
selects the midnight commit: the later one is excluded, the midnight one
included. -/
theorem claim_c1_witness :
    checkoutCutoff 19631 = 19631 * secondsPerDay
    ∧ (∃ c ∈ [Commit.mk "b" 1696118410, Commit.mk "a" 1696118400],
        c.hash = "a" ∧ c.time ≤ 19631 * secondsPerDay) :=
  ⟨(claim_c1_amended 19631 []).1,
    (claim_c1_amended 19631 [Commit.mk "b" 1696118410, Commit.mk "a" 1696118400]).2.1
      "a" (by decide)⟩

/-- C5 counterexample: on the Abort path (duplicate matched, continue mode
disabled) the iteration's events are just clean-then-build: the thrown
error skips the trailing `npmRun("clean")`, so teardown is not executed for
the Abort decision. -/
theorem claim_c5_counterexample :
    (dayTrace ⟨true, false⟩ ⟨"1.0.0", "abc1234", ["1.2.3-20231005-abc9999"]⟩ 1696464000).1 =
      [Event.runClean, Event.runBuild 1696464000]
    ∧ (dayTrace ⟨true, false⟩ ⟨"1.0.0", "abc1234", ["1.2.3-20231005-abc9999"]⟩ 1696464000).2 =
      some "20231005 or abc1234 is already published as 1.0.0"
    ∧ (dayTrace ⟨true, false⟩ ⟨"1.0.0", "abc1234", ["1.2.3-20231005-abc9999"]⟩
        1696464000).1.getLast? ≠ some Event.runClean :=
  ⟨by decide, by decide, by decide⟩

/-- C5 amended: the teardown clean runs after the publish decision on the
Publish and Skip paths (the iteration's last event is the clean), but on
the Abort path the thrown duplicate error propagates immediately and the
teardown is skipped (the iteration's events end with the build). -/
theorem claim_c5_amended (cfg : Config) (di : DayInput) (target : Nat) :
    ((dayTrace cfg di target).2 = none →
      (dayTrace cfg di target).1.getLast? = some Event.runClean)
    ∧ (∀ msg, (dayTrace cfg di target).2 = some msg →
      (dayTrace cfg di target).1 = [Event.runClean, Event.runBuild target]) := by
  cases hm : dedupeMatch di.ledger (dateStampOf target) di.hash with
  | true =>
    cases hc : cfg.contOnDup with
    | true =>
      rw [dayTrace_matched_skip cfg di target hm hc]
      exact ⟨fun _ => rfl, fun msg hmsg => by simp at hmsg⟩
    | false =>
      rw [dayTrace_matched_abort cfg di target hm hc]
      exact ⟨fun hnone => by simp at hnone, fun msg _ => rfl⟩
  | false =>
    rw [dayTrace_unmatched cfg di target hm]
    exact ⟨fun _ => rfl, fun msg hmsg => by simp at hmsg⟩

/-- C5 witness: a publishing (unmatched) iteration ends with the teardown
clean. -/
theorem claim_c5_witness :
    (dayTrace ⟨true, false⟩ ⟨"1.0.0", "abc1234", []⟩ 1696464000).1.getLast? =
      some Event.runClean :=
  (claim_c5_amended ⟨true, false⟩ ⟨"1.0.0", "abc1234", []⟩ 1696464000).1 (by decide)

theorem strIncludes_of_parts (s sub : String) (pre post : List Char)
    (h : s.data = pre ++ sub.data ++ post) : strIncludes s sub = true := by
  rw [strIncludes_iff]
  exact ⟨pre, post, h⟩

theorem dupMsg_data (d h v : String) :
    (dupMsg d h v).data =
      d.data ++ (" or ").data ++ h.data ++ (" is already published as ").data ++ v.data := by
  simp [dupMsg]

theorem dupMsg_names_date (d h v : String) : strIncludes (dupMsg d h v) d = true := by
  apply strIncludes_of_parts _ _ []
    ((" or ").data ++ h.data ++ (" is already published as ").data ++ v.data)
  rw [dupMsg_data]
  simp

theorem dupMsg_names_hash (d h v : String) : strIncludes (dupMsg d h v) h = true := by
  apply strIncludes_of_parts _ _ (d.data ++ (" or ").data)
    ((" is already published as ").data ++ v.data)
  rw [dupMsg_data]
  simp

theorem dupMsg_names_version (d h v : String) : strIncludes (dupMsg d h v) v = true := by
  apply strIncludes_of_parts _ _
    (d.data ++ (" or ").data ++ h.data ++ (" is already published as ").data) []
  rw [dupMsg_data]
  simp

/-- C4: in an iteration whose duplicate check matched, continue mode skips
(log, no publish, loop advances to the next day) while disabled continue
mode aborts the whole run with the duplicate message, which names the
date stamp, the short hash and the version; no publish event occurs on
either matched path. -/
theorem claim_c4_matched_paths (cfg : Config) (inputs : Nat → DayInput) (target now : Nat)
    (hle : target ≤ now)
    (hm : dedupeMatch (inputs target).ledger (dateStampOf target) (inputs target).hash = true) :
    (cfg.contOnDup = true →
      runDriver cfg inputs target now =
        ([Event.runClean, Event.runBuild target,
          Event.logSkip
            (dupMsg (dateStampOf target) (inputs target).hash (inputs target).version),
          Event.runClean] ++ (runDriver cfg inputs (target + secondsPerDay) now).1,
          (runDriver cfg inputs (target + secondsPerDay) now).2))
    ∧ (cfg.contOnDup = false →
      runDriver cfg inputs target now =
        ([Event.runClean, Event.runBuild target],
          RunResult.aborted
            (dupMsg (dateStampOf target) (inputs target).hash (inputs target).version)))
    ∧ strIncludes
        (dupMsg (dateStampOf target) (inputs target).hash (inputs target).version)
        (dateStampOf target) = true
    ∧ strIncludes
        (dupMsg (dateStampOf target) (inputs target).hash (inputs target).version)
        (inputs target).hash = true
    ∧ strIncludes
        (dupMsg (dateStampOf target) (inputs target).hash (inputs target).version)
        (inputs target).version = true
    ∧ Event.publishDryRun ∉ (dayTrace cfg (inputs target) target).1
    ∧ Event.publishReal ∉ (dayTrace cfg (inputs target) target).1 := by
  refine ⟨?_, ?_, dupMsg_names_date _ _ _, dupMsg_names_hash _ _ _,
    dupMsg_names_version _ _ _, ?_, ?_⟩
  · intro hc
    rw [runDriver_le cfg inputs target now hle,
      dayTrace_matched_skip cfg (inputs target) target hm hc]
  · intro hc
    rw [runDriver_le cfg inputs target now hle,
      dayTrace_matched_abort cfg (inputs target) target hm hc]
  · cases hc : cfg.contOnDup with
    | true =>
      rw [dayTrace_matched_skip cfg (inputs target) target hm hc]
      simp
    | false =>
      rw [dayTrace_matched_abort cfg (inputs target) target hm hc]
      simp
  · cases hc : cfg.contOnDup with
    | true =>
      rw [dayTrace_matched_skip cfg (inputs target) target hm hc]
      simp
    | false =>
      rw [dayTrace_matched_abort cfg (inputs target) target hm hc]
      simp

/-- C4 witness: a concrete matched day (2023-10-05, ledger key embedding
`20231005`) with continue mode disabled aborts the run after clean and
build, with the duplicate message. -/
theorem claim_c4_witness :
    runDriver ⟨true, false⟩ (fun _ => ⟨"1.0.0", "abc1234", ["1.2.3-20231005-abc9999"]⟩)
        1696464000 1696464000 =
      ([Event.runClean, Event.runBuild 1696464000],
        RunResult.aborted (dupMsg (dateStampOf 1696464000) "abc1234" "1.0.0")) :=
  (claim_c4_matched_paths ⟨true, false⟩
      (fun _ => ⟨"1.0.0", "abc1234", ["1.2.3-20231005-abc9999"]⟩)
      1696464000 1696464000 (by decide) (by decide)).2.1 rfl

theorem buildTargets_append (a b : List Event) :
    buildTargets (a ++ b) = buildTargets a ++ buildTargets b := by
  simp [buildTargets, List.filterMap_append]

theorem buildTargets_dayPublishEvents (cfg : Config) (t : Nat) :
    buildTargets (dayPublishEvents cfg t) = [t] := by
  cases hcd : cfg.dryRun <;> simp [buildTargets, dayPublishEvents, hcd]

theorem buildTargets_flatten_blocks (cfg : Config) (f : Nat → Nat) (l : List Nat) :
    buildTargets ((l.map fun i => dayPublishEvents cfg (f i)).flatten) = l.map f := by
  induction l with
  | nil => rfl
  | cons a l ih =>
    rw [List.map_cons, List.flatten_cons, buildTargets_append,
      buildTargets_dayPublishEvents, ih, List.map_cons]
    rfl

/-- C3: the driver loop starts at the fixed start date, advances by exactly
one day per iteration in ascending order, and (absent duplicate matches)
runs while `target <= now`, so it performs one iteration per calendar day
from the start date through the day of `now`; for start `2023-10-01` and
`now = 2023-10-03T00:00:00Z` it performs exactly the three builds for
Oct 1, Oct 2 and Oct 3. -/
theorem claim_c3_schedule (cfg : Config) (inputs : Nat → DayInput) (target now : Nat)
    (hnm : ∀ t, dedupeMatch (inputs t).ledger (dateStampOf t) (inputs t).hash = false) :
    buildTargets (runDriver cfg inputs target now).1 =
      (List.range (daysCount target now)).map (fun i => target + secondsPerDay * i)
    ∧ (runDriver cfg inputs target now).2 = RunResult.completed
    ∧ buildTargets (runDriver cfg inputs START_DATE 1696291200).1 =
      [1696118400, 1696204800, 1696291200]
    ∧ daysCount START_DATE 1696291200 = 3 := by
  refine ⟨?_, ?_, ?_, by decide⟩
  · rw [runDriver_noMatch cfg inputs target now hnm]
    exact buildTargets_flatten_blocks cfg (fun i => target + secondsPerDay * i) _
  · rw [runDriver_noMatch cfg inputs target now hnm]
  · rw [runDriver_noMatch cfg inputs START_DATE 1696291200 hnm]
    rw [buildTargets_flatten_blocks cfg (fun i => START_DATE + secondsPerDay * i) _]
    decide

/-- C3 witness: the concrete three-day scenario: start `2023-10-01`, `now`
`2023-10-03T00:00:00Z`, empty ledger every day. -/
theorem claim_c3_witness :
    buildTargets (runDriver ⟨true, false⟩ (fun _ => ⟨"0.1.0", "abc1234", []⟩)
        START_DATE 1696291200).1 = [1696118400, 1696204800, 1696291200] :=
  (claim_c3_schedule ⟨true, false⟩ (fun _ => ⟨"0.1.0", "abc1234", []⟩)
    START_DATE 1696291200 (fun _ => rfl)).2.2.1

theorem buildTargets_map_normEv (evs : List Event) :
    buildTargets (evs.map normEv) = buildTargets evs := by
  induction evs with
  | nil => rfl
  | cons e evs ih =>
    cases e <;> simp [buildTargets, normEv] at ih ⊢ <;> exact ih

/-- C9: two runs over identical inputs differing only in the dry-run flag
take identical per-day decisions — their event traces are equal after
collapsing the publish kinds, they end in the same result, and they build
the same days — and the dry run never issues the registry-mutating publish
call. -/
theorem claim_c9_dry_run_faithful (c : Bool) (inputs : Nat → DayInput) (target now : Nat) :
    (runDriver ⟨true, c⟩ inputs target now).1.map normEv =
      (runDriver ⟨false, c⟩ inputs target now).1.map normEv
    ∧ (runDriver ⟨true, c⟩ inputs target now).2 =
      (runDriver ⟨false, c⟩ inputs target now).2
    ∧ Event.publishReal ∉ (runDriver ⟨true, c⟩ inputs target now).1
    ∧ buildTargets (runDriver ⟨true, c⟩ inputs target now).1 =
      buildTargets (runDriver ⟨false, c⟩ inputs target now).1 := by
  obtain ⟨h1, h2, h3⟩ := runDriverGo_dryRun c inputs now (daysCount target now) target
  refine ⟨h1, h2, h3, ?_⟩
  have := congrArg buildTargets h1
  rwa [buildTargets_map_normEv, buildTargets_map_normEv] at this

/-- C2 witness: the published key `1.2.3-20231005-abc1234` matches a
candidate with date stamp `20231005`. -/
theorem claim_c2_witness :
    dedupeMatch ["1.2.3-20231005-abc1234"] "20231005" "deadbee" = true :=
  claim_c2_dedupe_substring.2.1

/-- C6 witness: lookup in the parsed table of two lines with the same
source equals the last line's target per the characterization. -/
theorem claim_c6_witness :
    tableLookup (redirects "/a\t/x\n/a\t/y") "/a" =
      ((parsedPairs "/a\t/x\n/a\t/y").reverse.find? fun p => p.1 == "/a").map Prod.snd :=
  claim_c6_redirects_parse.1 "/a\t/x\n/a\t/y" "/a"

/-- C7 witness: a concrete query failure yields the empty published set. -/
theorem claim_c7_witness :
    completedReleases (Except.error "network error") = [] :=
  claim_c7_ledger_fail_open.1 "network error"

/-- C9 witness: the three-day scenario ends in the same result whether or
not dry-run is set. -/
theorem claim_c9_witness :
    (runDriver ⟨true, false⟩ (fun _ => ⟨"0.1.0", "abc1234", []⟩) START_DATE 1696291200).2 =
      (runDriver ⟨false, false⟩ (fun _ => ⟨"0.1.0", "abc1234", []⟩) START_DATE 1696291200).2 :=
  (claim_c9_dry_run_faithful false (fun _ => ⟨"0.1.0", "abc1234", []⟩)
    START_DATE 1696291200).2.1

/-- C10 witness: after loading concrete raw text, `redirects()` returns the
parsed table without throwing. -/
theorem claim_c10_witness :
    redirectsMethod (loadRedirects "/a\t/b") = Except.ok (redirects "/a\t/b") :=
  claim_c10_redirects_guard.2.2 "/a\t/b"

end ContentInventory
